import Mathlib

/-!
Verification of the MARC-21 reader (marc21.go) against its specification.

Bytes are modelled as `Nat` (values < 256 in practice), byte slices as
`List Nat`, and Go strings as lists of their bytes.  Go code that can
panic (index out of range, slice out of range, nil dereference) is
modelled with `Option`/`Except`, `none`/`.error` marking the panic.
-/

namespace Marc21

/-- Control bytes, from the `const` block of marc21.go. -/
def delimiter : Nat := 0x1f

def fieldTerminator : Nat := 0x1e

def recordTerminator : Nat := 0x1d

def leaderSize : Nat := 24

def maxRecordSize : Nat := 99999

/-- Bytes of an ASCII Go string literal. -/
def bytesOf (s : String) : List Nat := s.toList.map Char.toNat

/-- Go slice expression `l[a:b]` (value only; bounds are checked at use sites). -/
def slice (l : List Nat) (a b : Nat) : List Nat := (l.drop a).take (b - a)

/-- Go slice `l[a:b]` including the bounds check: `none` models the panic. -/
def goSlice (l : List Nat) (a b : Nat) : Option (List Nat) :=
  if a ≤ b ∧ b ≤ l.length then some (slice l a b) else none

/-- `decodeDecimal` from marc21.go: `result = (10 * result) + int(n[i]-'0')`.
Go's `n[i]-'0'` is byte subtraction modulo 256, hence `(b + 208) % 256`. -/
def decodeDecimal (n : List Nat) : Nat :=
  n.foldl (fun result b => 10 * result + (b + 208) % 256) 0

/-- `location` from marc21.go: absolute offset and length of one field
occurrence inside the raw record. -/
structure location where
  offset : Nat
  length : Nat
deriving DecidableEq

/-- The two transcoders present in marc21.go (`marc8Transcoder` is a stub). -/
inductive Transcoder where
  | marc8
  | utf8
deriving DecidableEq

/-- `transcoderFunc` behaviour: both `utf8Transcoder` and the stubbed
`marc8Transcoder` return `string(bytes)`, i.e. the bytes unchanged. -/
def applyTranscoder : Transcoder → List Nat → List Nat
  | .marc8, bytes => bytes
  | .utf8, bytes => bytes

/-- `VariableField` from marc21.go.  The Go zero value `VariableField{}` has a
nil transcoder, modelled by `none`. -/
structure VariableField where
  tag : List Nat
  rawData : List (List Nat)
  transcoder : Option Transcoder
deriving DecidableEq

/-- `MarcRecord` from marc21.go.  The directory is kept as the scan-order
list of (tag, location) pairs; Go's `map[string][]location` built by
`append` maps a tag to exactly the locations of its pairs, in scan order. -/
structure MarcRecord where
  rawRecord : List Nat
  offset : Nat
  status : Nat
  recType : Nat
  bibLevel : Nat
  characterEncoding : Nat
  encodingLevel : Nat
  catalogingForm : Nat
  multipartLevel : Nat
  directory : List (List Nat × location)
  transcoder : Transcoder
deriving DecidableEq

/-- Directory scan loop of `decodeDirectory`, over the suffix of the record
starting at the current index `i` (initially 24): stop at a field
terminator; otherwise consume one 12-byte entry (3-byte tag, 4-byte decimal
length, 5-byte decimal start offset) and recurse at `i+12`.  `none` models
the panics `record[i]` / slice out of range. -/
def dirScanAux (base : Nat) : List Nat → Option (List (List Nat × location))
  | [] => none
  | c :: rest =>
    if c = fieldTerminator then some []
    else
      match rest with
      | t1 :: t2 :: l0 :: l1 :: l2 :: l3 :: s0 :: s1 :: s2 :: s3 :: s4 :: tail =>
        (dirScanAux base tail).map
          (fun es => ([c, t1, t2],
            location.mk (base + decodeDecimal [s0, s1, s2, s3, s4])
              (decodeDecimal [l0, l1, l2, l3])) :: es)
      | _ => none

/-- `decodeDirectory` from marc21.go: base address is the 5-digit decimal at
offset 12, entries start at offset 24. -/
def decodeDirectory (record : List Nat) : Option (List (List Nat × location)) :=
  dirScanAux (decodeDecimal (slice record 12 17)) (record.drop 24)

/-- Errors of `readRecord`: `eof` models `io.EOF` (and any read error),
the other two are `errInvalidLength` and `errNoRecordTerminator`. -/
inductive ReadError where
  | eof
  | invalidLength
  | noRecordTerminator
deriving DecidableEq

/-- Pad a list with zero bytes up to length `n` (a Go `Read` into a fresh
buffer leaves unread bytes zero). -/
def padTo (n : Nat) (l : List Nat) : List Nat := l ++ List.replicate (n - l.length) 0

/-- `readRecord` from marc21.go, with the input stream as the list of bytes
still available (`strings.Reader`-style: a read returns whatever is
available, and `io.EOF` only when nothing is). -/
def readRecord (input : List Nat) : Except ReadError (Nat × List Nat) :=
  if input.isEmpty then .error .eof
  else
    let tmp := padTo 5 (input.take 5)
    let rest := input.drop 5
    let rlen := decodeDecimal tmp
    if rlen < leaderSize + 2 ∨ rlen > maxRecordSize then .error .invalidLength
    else if rest.isEmpty then .error .eof
    else
      let result := tmp ++ padTo (rlen - 5) (rest.take (rlen - 5))
      if result.getLastD 0 = recordTerminator then .ok (rlen, result)
      else .error .noRecordTerminator

/-- `IsControlFieldTag` from marc21.go: `tag[0] == '0' && tag[1] == '0'`.
Go's `&&` short-circuits, so `tag[1]` is only read when `tag[0] == '0'`;
`none` models the index-out-of-range panics. -/
def isControlFieldTagGo : List Nat → Option Bool
  | [] => none
  | [c0] => if c0 = 48 then none else some false
  | c0 :: c1 :: _ => some (decide (c0 = 48 ∧ c1 = 48))

/-- Query errors of the record model; `panicked` marks a Go runtime panic. -/
inductive FieldError where
  | notAControlField
  | duplicateControlField
  | notADataField
  | panicked
deriving DecidableEq

/-- `GetRawField` from marc21.go: an absent tag yields the zero value
`VariableField{}`; otherwise each location is sliced out of the raw record
(`none` models a slice-out-of-range panic). -/
def GetRawField (m : MarcRecord) (tag : List Nat) : Option VariableField :=
  let locs := (m.directory.filter (fun e => decide (e.1 = tag))).map Prod.snd
  if locs.isEmpty then some ⟨[], [], none⟩
  else
    (locs.mapM (fun loc => goSlice m.rawRecord loc.offset (loc.offset + loc.length))).map
      (fun result => ⟨tag, result, some m.transcoder⟩)

/-- `GetControlField` from marc21.go. -/
def GetControlField (m : MarcRecord) (tag : List Nat) : Except FieldError (List Nat) :=
  match isControlFieldTagGo tag with
  | none => .error .panicked
  | some false => .error .notAControlField
  | some true =>
    match GetRawField m tag with
    | none => .error .panicked
    | some f =>
      match f.rawData with
      | [] => .ok []
      | [cf] => if cf.isEmpty then .error .panicked else .ok cf.dropLast
      | _ :: _ :: _ => .error .duplicateControlField

/-- `GetDataField` from marc21.go. -/
def GetDataField (m : MarcRecord) (tag : List Nat) : Except FieldError VariableField :=
  match isControlFieldTagGo tag with
  | none => .error .panicked
  | some true => .error .notADataField
  | some false =>
    match GetRawField m tag with
    | none => .error .panicked
    | some f => .ok f

/-- The distinct keys of the Go directory map: the scan-order tags with
duplicates removed (Go map iteration order is unspecified; only the set of
keys is determined). -/
def dirKeys (es : List (List Nat × location)) : List (List Nat) :=
  (es.map Prod.fst).dedup

/-- `GetFieldList` from marc21.go: collect the map keys and `sort.Strings`
them (lexicographic byte order, the `≤` of `List Nat`). -/
def GetFieldList (m : MarcRecord) : List (List Nat) :=
  (dirKeys m.directory).insertionSort (· ≤ ·)

/-- The inner loop of `GetNthRawSubfield`:
`for rv[i] != delimiter && rv[i] != fieldTerminator { i++ }; return rv[start:i]`,
collecting the data run; `none` models running off the end (panic). -/
def takeData : List Nat → Option (List Nat)
  | [] => none
  | c :: rest =>
    if c = delimiter ∨ c = fieldTerminator then some []
    else (takeData rest).map (c :: ·)

/-- The scan of `GetNthRawSubfield` over the bytes after offset 2, as a
function of the unread suffix.  `ad = true` means the previous byte was a
delimiter (the code byte comparison of the `delim:` label applies);
`ad = false` is the `for`/`switch` seek loop.  `.error ()` models an
index-out-of-range panic, `.ok none` models Go's `nil` return. -/
def sfScan (sf : Nat) : List Nat → Bool → Except Unit (Option (List Nat))
  | [], _ => .error ()
  | c :: rest, ad =>
    if ad ∧ c = sf then
      match takeData rest with
      | some d => .ok (some d)
      | none => .error ()
    else if c = delimiter then sfScan sf rest true
    else if c = fieldTerminator then .ok none
    else sfScan sf rest false

/-- `GetNthRawSubfield` from marc21.go.  `index` selects the occurrence
(`f.GetRawValue(index)`); `subfield[0]` is the requested code.  The scan
starts at offset 2 and only proceeds if `rv[2]` is a delimiter. -/
def VariableField.GetNthRawSubfield (f : VariableField) (subfield : List Nat)
    (index : Nat) : Except Unit (Option (List Nat)) :=
  match f.rawData.get? index with
  | none => .error ()
  | some rv =>
    match subfield.head? with
    | none => .error ()
    | some sf =>
      match rv with
      | _ :: _ :: c :: rest =>
        if c = delimiter then sfScan sf rest true else .ok none
      | _ => .error ()

/-- `GetNthSubfield` from marc21.go: transcode a found run, `""` for `nil`. -/
def VariableField.GetNthSubfield (f : VariableField) (subfield : List Nat)
    (index : Nat) : Except Unit (List Nat) :=
  match f.GetNthRawSubfield subfield index with
  | .error e => .error e
  | .ok none => .ok []
  | .ok (some raw) =>
    match f.transcoder with
    | none => .error ()
    | some t => .ok (applyTranscoder t raw)

/-- `marc21LeaderValues` from marc21.go: allowed byte sets per leader offset. -/
def marc21LeaderValues : List (Nat × List Nat) :=
  [(5, bytesOf "acdnp"), (6, bytesOf "acdefgijkmoprt"), (7, bytesOf "abcdims"),
   (8, bytesOf " a"), (9, bytesOf " a"), (10, bytesOf "2"), (11, bytesOf "2"),
   (17, bytesOf " 1234578uz"), (18, bytesOf " aciu"), (19, bytesOf " abc"),
   (20, bytesOf "4"), (21, bytesOf "5"), (22, bytesOf "0"), (23, bytesOf "0")]

/-- `validLeader` from marc21.go: check each tabulated position, returning
false at the first mismatch; `none` models `leader[offset]` out of range. -/
def checkLeader : List (Nat × List Nat) → List Nat → Option Bool
  | [], _ => some true
  | (off, vals) :: rest, leader =>
    match leader.get? off with
    | none => none
    | some c => if vals.contains c then checkLeader rest leader else some false

/-- The `switch m.CharacterEncoding` of `NewMarcRecord`: `' '` selects the
MARC-8 transcoder, `'a'` UTF-8, and the default branch silently selects
UTF-8 as well (the error return is commented out in the source). -/
def selectTranscoder (enc : Nat) : Transcoder :=
  if enc = 32 then .marc8
  else if enc = 97 then .utf8
  else .utf8

/-- Construction errors: the only one `NewMarcRecord` can return. -/
inductive ConstructError where
  | invalidLeader
deriving DecidableEq

/-- Body of `NewMarcRecord` after leader validation: extract the fixed
leader bytes (panics if the record is shorter than 20 bytes), select the
transcoder, decode the directory. -/
def buildRecord (rawData : List Nat) (offset : Nat) :
    Option (Except ConstructError MarcRecord) := do
  let s ← rawData.get? 5
  let t ← rawData.get? 6
  let b ← rawData.get? 7
  let enc ← rawData.get? 8
  let el ← rawData.get? 17
  let cf ← rawData.get? 18
  let ml ← rawData.get? 19
  let dir ← decodeDirectory rawData
  return .ok ⟨rawData, offset, s, t, b, enc, el, cf, ml, dir, selectTranscoder enc⟩

/-- `NewMarcRecord` from marc21.go. -/
def NewMarcRecord (rawData : List Nat) (validate : Bool) (offset : Nat) :
    Option (Except ConstructError MarcRecord) :=
  if validate then
    match checkLeader marc21LeaderValues rawData with
    | none => none
    | some false => some (.error .invalidLeader)
    | some true => buildRecord rawData offset
  else buildRecord rawData offset

/-- The reference record of marc21_test.go (Harvard Library Open Metadata). -/
def harvardBytes : List Nat := bytesOf
  "00458nam a22001577u 4500001001200000005001700012008004100029035001600070245005400086260004100140300003500181650003100216710003300247988001300280906000700293\x1e000000002-7\x1e20120831093346.0\x1e821202|1937    |||||||  |||| |0||||eng|d\x1e0 \x1faocm83544809\x1e00\x1faGarden exhibition /\x1fcSan Francisco Museum of Art.\x1e0 \x1faSan Francisco :\x1fbThe Museum,\x1fc[1937]\x1e  \x1fa1 folded sheet (4p.) ;\x1fc14 cm.\x1e 0\x1faHorticultural exhibitions.\x1e2 \x1faSan Francisco Museum of Art.\x1e  \x1fa20020608\x1e  \x1f0MH\x1e\x1d"

end Marc21

deriving instance DecidableEq for Except

set_option maxRecDepth 40000

namespace Marc21

/-! ## Helper lemmas -/

theorem padTo_eq_of_le {n : Nat} {l : List Nat} (h : n ≤ l.length) :
    padTo n (l.take n) = l.take n := by
  unfold padTo
  rw [List.length_take, Nat.min_eq_left h, Nat.sub_self]
  simp

theorem take_five_append {input : List Nat} {L : Nat} (h5 : 5 ≤ L)
    (hL : L ≤ input.length) :
    input.take 5 ++ padTo (L - 5) ((input.drop 5).take (L - 5)) = input.take L := by
  have hlen : L - 5 ≤ (input.drop 5).length := by
    rw [List.length_drop]; omega
  rw [padTo_eq_of_le hlen, ← List.take_add]
  congr 1
  omega

theorem isEmpty_false_of_le {l : List Nat} (h : 1 ≤ l.length) : l.isEmpty = false := by
  cases l with
  | nil => simp at h
  | cons a t => rfl

/-- Unfolded form of `readRecord` on a stream holding at least 5 bytes. -/
theorem readRecord_eq {input : List Nat} (h5 : 5 ≤ input.length) :
    readRecord input =
      (if decodeDecimal (input.take 5) < 26 ∨ decodeDecimal (input.take 5) > 99999 then
        .error .invalidLength
      else if (input.drop 5).isEmpty then .error .eof
      else
        if (input.take 5 ++
            padTo (decodeDecimal (input.take 5) - 5)
              ((input.drop 5).take (decodeDecimal (input.take 5) - 5))).getLastD 0 =
            recordTerminator then
          .ok (decodeDecimal (input.take 5),
            input.take 5 ++
              padTo (decodeDecimal (input.take 5) - 5)
                ((input.drop 5).take (decodeDecimal (input.take 5) - 5)))
        else .error .noRecordTerminator) := by
  have hne : input.isEmpty = false := isEmpty_false_of_le (by omega)
  unfold readRecord
  rw [hne, padTo_eq_of_le h5]
  rfl

/-! ## C9: decodeDecimal -/

/-- C9: `decodeDecimal "03245" = 3245`, `decodeDecimal "0" = 0`, and
prepending any number of leading `'0'` bytes never changes the value. -/
theorem claim9_decodeDecimal :
    decodeDecimal (bytesOf "03245") = 3245 ∧ decodeDecimal (bytesOf "0") = 0 ∧
    ∀ (k : Nat) (s : List Nat),
      decodeDecimal (List.replicate k 48 ++ s) = decodeDecimal s := by
  refine ⟨by decide, by decide, ?_⟩
  intro k s
  induction k with
  | zero => simp
  | succ n ih =>
    rw [List.replicate_succ, List.cons_append]
    unfold decodeDecimal at ih ⊢
    simp only [List.foldl_cons]
    have h0 : 10 * 0 + (48 + 208) % 256 = 0 := by norm_num
    rw [h0]
    exact ih

/-! ## C3: readRecord error conditions -/

/-- C3: on a stream with at least 5 bytes, `readRecord` fails with
`InvalidLength` exactly when the declared 5-digit decimal length is below
26 or above 99999; and when the length is in range and that many bytes are
available, it fails with `MissingTerminator` exactly when the final byte of
the declared-length prefix is not the record terminator 0x1D. -/
theorem claim3_framer_errors :
    ∀ input : List Nat, 5 ≤ input.length →
      ((readRecord input = .error .invalidLength ↔
        (decodeDecimal (input.take 5) < 26 ∨ decodeDecimal (input.take 5) > 99999)) ∧
       (∀ L, L = decodeDecimal (input.take 5) → 26 ≤ L → L ≤ 99999 →
          L ≤ input.length →
          (readRecord input = .error .noRecordTerminator ↔
            (input.take L).getLastD 0 ≠ recordTerminator))) := by
  intro input h5
  rw [readRecord_eq h5]
  constructor
  · by_cases hr : decodeDecimal (input.take 5) < 26 ∨ decodeDecimal (input.take 5) > 99999
    · simp [hr]
    · rw [if_neg hr]
      simp only [iff_false, hr]
      split
      · simp
      · split <;> simp
  · intro L hLdef hL26 hLmax hLlen
    have hr : ¬(decodeDecimal (input.take 5) < 26 ∨ decodeDecimal (input.take 5) > 99999) := by
      omega
    have hrest : ((input.drop 5).isEmpty) = false := by
      apply isEmpty_false_of_le
      rw [List.length_drop]
      omega
    rw [if_neg hr, hrest]
    simp only [Bool.false_eq_true, if_false]
    rw [← hLdef, take_five_append (by omega) hLlen]
    by_cases ht : (input.take L).getLastD 0 = recordTerminator
    · simp [ht]
    · simp [ht]

/-- Witness for C3 on a concrete minimal 26-byte record. -/
theorem claim3_witness :
    (5 ≤ (bytesOf "00026" ++ (List.replicate 20 32 ++ [29])).length) ∧
    (readRecord (bytesOf "00026" ++ (List.replicate 20 32 ++ [29])) =
        .error .noRecordTerminator ↔
      ((bytesOf "00026" ++ (List.replicate 20 32 ++ [29])).take 26).getLastD 0 ≠
        recordTerminator) := by
  refine ⟨by decide, ?_⟩
  exact (claim3_framer_errors (bytesOf "00026" ++ (List.replicate 20 32 ++ [29]))
    (by decide)).2 26 (by decide) (by decide) (by decide) (by decide)

/-! ## C4: readRecord round trip -/

/-- C4: for a well-formed record on the stream, `readRecord` returns the
declared 5-digit length and exactly the consumed prefix of the input, and
the returned bytes' length equals the decimal value of their own first
five bytes. -/
theorem claim4_framer_roundtrip :
    ∀ (input : List Nat) (L : Nat), L = decodeDecimal (input.take 5) →
      26 ≤ L → L ≤ 99999 → L ≤ input.length →
      (input.take L).getLastD 0 = recordTerminator →
      readRecord input = .ok (L, input.take L) ∧
      (input.take L).length = L ∧
      decodeDecimal ((input.take L).take 5) = L := by
  intro input L hLdef hL26 hLmax hLlen hterm
  have h5 : 5 ≤ input.length := by omega
  have htake5 : (input.take L).take 5 = input.take 5 := by
    rw [List.take_take, Nat.min_eq_left (by omega)]
  refine ⟨?_, ?_, ?_⟩
  · rw [readRecord_eq h5]
    have hr : ¬(decodeDecimal (input.take 5) < 26 ∨ decodeDecimal (input.take 5) > 99999) := by
      omega
    have hrest : ((input.drop 5).isEmpty) = false := by
      apply isEmpty_false_of_le
      rw [List.length_drop]
      omega
    rw [if_neg hr, hrest]
    simp only [Bool.false_eq_true, if_false]
    rw [← hLdef, take_five_append (by omega) hLlen, if_pos hterm]
  · rw [List.length_take]
    omega
  · rw [htake5, hLdef]

/-- Witness for C4 on a concrete minimal 26-byte record. -/
theorem claim4_witness :
    readRecord (bytesOf "00026" ++ (List.replicate 20 32 ++ [recordTerminator])) =
      .ok (26, (bytesOf "00026" ++ (List.replicate 20 32 ++ [recordTerminator])).take 26) ∧
    ((bytesOf "00026" ++ (List.replicate 20 32 ++ [recordTerminator])).take 26).length = 26 ∧
    decodeDecimal (((bytesOf "00026" ++
        (List.replicate 20 32 ++ [recordTerminator])).take 26).take 5) = 26 :=
  claim4_framer_roundtrip _ 26 (by decide) (by decide) (by decide) (by decide) (by decide)

/-! ## Record queries: C5, C7, C10 -/

theorem isControlFieldTagGo_of_le {tag : List Nat} (h : 2 ≤ tag.length) :
    isControlFieldTagGo tag = some (decide (tag.take 2 = [48, 48])) := by
  match tag, h with
  | a :: b :: rest, _ =>
    by_cases ha : a = 48 <;> by_cases hb : b = 48 <;>
      simp [isControlFieldTagGo, ha, hb]

theorem GetRawField_absent {m : MarcRecord} {tag : List Nat}
    (h : ∀ e ∈ m.directory, e.1 ≠ tag) :
    GetRawField m tag = some ⟨[], [], none⟩ := by
  unfold GetRawField
  have hfil : m.directory.filter (fun e => decide (e.1 = tag)) = [] := by
    rw [List.filter_eq_nil_iff]
    intro e he
    simpa using h e he
  rw [hfil]
  rfl

theorem GetRawField_single {m : MarcRecord} {tag : List Nat} {loc : location}
    (hfil : m.directory.filter (fun e => decide (e.1 = tag)) = [(tag, loc)])
    (hbound : loc.offset + loc.length ≤ m.rawRecord.length) :
    GetRawField m tag =
      some ⟨tag, [slice m.rawRecord loc.offset (loc.offset + loc.length)],
        some m.transcoder⟩ := by
  unfold GetRawField
  rw [hfil]
  have hslice : goSlice m.rawRecord loc.offset (loc.offset + loc.length) =
      some (slice m.rawRecord loc.offset (loc.offset + loc.length)) := by
    unfold goSlice
    rw [if_pos ⟨Nat.le_add_right _ _, hbound⟩]
  simp [List.mapM, List.mapM.loop, hslice]

/-- C5: `GetControlField` fails with `NotAControlField` exactly when the
first two tag characters are not "00"; an absent control tag yields the
empty string with no error; a control tag with several occurrences yields
`DuplicateControlField`; `GetDataField` fails with `NotADataField` exactly
when the tag is a control tag and otherwise returns `GetRawField`'s result. -/
theorem claim5_control_data_errors :
    (∀ (m : MarcRecord) (tag : List Nat), 2 ≤ tag.length →
      (GetControlField m tag = .error .notAControlField ↔ tag.take 2 ≠ [48, 48])) ∧
    (∀ (m : MarcRecord) (tag : List Nat), tag.take 2 = [48, 48] →
      (∀ e ∈ m.directory, e.1 ≠ tag) → GetControlField m tag = .ok []) ∧
    (∀ (m : MarcRecord) (tag : List Nat) (f : VariableField), tag.take 2 = [48, 48] →
      GetRawField m tag = some f → 2 ≤ f.rawData.length →
      GetControlField m tag = .error .duplicateControlField) ∧
    (∀ (m : MarcRecord) (tag : List Nat), 2 ≤ tag.length →
      (GetDataField m tag = .error .notADataField ↔ tag.take 2 = [48, 48])) ∧
    (∀ (m : MarcRecord) (tag : List Nat), 2 ≤ tag.length → tag.take 2 ≠ [48, 48] →
      GetDataField m tag = (GetRawField m tag).elim (.error .panicked) .ok) := by
  have hlen2 : ∀ tag : List Nat, tag.take 2 = [48, 48] → 2 ≤ tag.length := by
    intro tag h
    have := congrArg List.length h
    rw [List.length_take] at this
    simp at this
    omega
  refine ⟨?_, ?_, ?_, ?_, ?_⟩
  · intro m tag h2
    unfold GetControlField
    rw [isControlFieldTagGo_of_le h2]
    by_cases hc : tag.take 2 = [48, 48]
    · have hd : decide (tag.take 2 = [48, 48]) = true := by simp [hc]
      rw [hd]
      constructor
      · intro h
        exfalso
        revert h
        cases GetRawField m tag with
        | none => intro h; simp at h
        | some f =>
          obtain ⟨ftag, fdata, ftr⟩ := f
          intro h
          cases fdata with
          | nil => simp at h
          | cons cf rest =>
            cases rest with
            | nil => by_cases hcf : cf = [] <;> simp [hcf] at h
            | cons cf2 rest2 => simp at h
      · intro h; exact absurd hc h
    · have hd : decide (tag.take 2 = [48, 48]) = false := by simp [hc]
      rw [hd]
      simp [hc]
  · intro m tag hc habs
    unfold GetControlField
    have hd : decide (tag.take 2 = [48, 48]) = true := by simp [hc]
    rw [isControlFieldTagGo_of_le (hlen2 tag hc), hd, GetRawField_absent habs]
  · intro m tag f hc hraw hdup
    unfold GetControlField
    have hd : decide (tag.take 2 = [48, 48]) = true := by simp [hc]
    rw [isControlFieldTagGo_of_le (hlen2 tag hc), hd, hraw]
    match f, hdup with
    | ⟨t, _ :: _ :: _, tr⟩, _ => rfl
  · intro m tag h2
    unfold GetDataField
    rw [isControlFieldTagGo_of_le h2]
    by_cases hc : tag.take 2 = [48, 48]
    · have hd : decide (tag.take 2 = [48, 48]) = true := by simp [hc]
      rw [hd]
      simp [hc]
    · have hd : decide (tag.take 2 = [48, 48]) = false := by simp [hc]
      rw [hd]
      constructor
      · intro h
        exfalso
        revert h
        cases GetRawField m tag with
        | none => intro h; simp at h
        | some f => intro h; simp at h
      · intro h; exact absurd h hc
  · intro m tag h2 hc
    unfold GetDataField
    have hd : decide (tag.take 2 = [48, 48]) = false := by simp [hc]
    rw [isControlFieldTagGo_of_le h2, hd]
    cases GetRawField m tag <;> rfl

/-- Witness for C5 on a concrete record: tag "001" occurs once, tag "245"
is not a control tag, tag "002" is absent, tag "003" occurs twice. -/
theorem claim5_witness :
    (GetControlField ⟨[97, 98, 30, 99, 30], 0, 0, 0, 0, 97, 0, 0, 0,
        [([48, 48, 49], ⟨0, 3⟩), ([48, 48, 51], ⟨0, 3⟩), ([48, 48, 51], ⟨3, 2⟩)],
        .utf8⟩ [50, 52, 53] = .error .notAControlField ↔
      [50, 52, 53].take 2 ≠ [48, 48]) ∧
    GetControlField ⟨[97, 98, 30, 99, 30], 0, 0, 0, 0, 97, 0, 0, 0,
        [([48, 48, 49], ⟨0, 3⟩), ([48, 48, 51], ⟨0, 3⟩), ([48, 48, 51], ⟨3, 2⟩)],
        .utf8⟩ [48, 48, 50] = .ok [] ∧
    GetControlField ⟨[97, 98, 30, 99, 30], 0, 0, 0, 0, 97, 0, 0, 0,
        [([48, 48, 49], ⟨0, 3⟩), ([48, 48, 51], ⟨0, 3⟩), ([48, 48, 51], ⟨3, 2⟩)],
        .utf8⟩ [48, 48, 51] = .error .duplicateControlField ∧
    (GetDataField ⟨[97, 98, 30, 99, 30], 0, 0, 0, 0, 97, 0, 0, 0,
        [([48, 48, 49], ⟨0, 3⟩), ([48, 48, 51], ⟨0, 3⟩), ([48, 48, 51], ⟨3, 2⟩)],
        .utf8⟩ [48, 48, 49] = .error .notADataField ↔
      [48, 48, 49].take 2 = [48, 48]) := by
  refine ⟨(claim5_control_data_errors.1 _ [50, 52, 53] (by decide)), ?_, ?_,
    (claim5_control_data_errors.2.2.2.1 _ [48, 48, 49] (by decide))⟩
  · exact claim5_control_data_errors.2.1 _ [48, 48, 50] (by decide) (by decide)
  · exact claim5_control_data_errors.2.2.1 _ [48, 48, 51]
      ⟨[48, 48, 51], [[97, 98, 30], [99, 30]], some .utf8⟩ (by decide) (by decide)
      (by decide)

/-- C10: for a record whose directory holds exactly one occurrence of a
control tag, with the occurrence range inside the raw record, the final
byte of the occurrence is stripped; if the field terminator occurs only as
the final byte, it never appears in the returned value. -/
theorem claim10_control_field_strip :
    ∀ (m : MarcRecord) (tag : List Nat) (loc : location),
      tag.take 2 = [48, 48] →
      m.directory.filter (fun e => decide (e.1 = tag)) = [(tag, loc)] →
      loc.offset + loc.length ≤ m.rawRecord.length →
      0 < loc.length →
      GetControlField m tag =
        .ok ((slice m.rawRecord loc.offset (loc.offset + loc.length)).dropLast) ∧
      ((∀ k, (hk : k < (slice m.rawRecord loc.offset (loc.offset + loc.length)).length) →
          (slice m.rawRecord loc.offset (loc.offset + loc.length)).get ⟨k, hk⟩ =
            fieldTerminator →
          k = (slice m.rawRecord loc.offset (loc.offset + loc.length)).length - 1) →
        fieldTerminator ∉
          (slice m.rawRecord loc.offset (loc.offset + loc.length)).dropLast) := by
  intro m tag loc hc hfil hbound hpos
  have h2 : 2 ≤ tag.length := by
    have := congrArg List.length hc
    rw [List.length_take] at this
    simp at this
    omega
  have hcf : (slice m.rawRecord loc.offset (loc.offset + loc.length)).length =
      loc.length := by
    unfold slice
    rw [List.length_take, List.length_drop]
    omega
  constructor
  · unfold GetControlField
    have hd : decide (tag.take 2 = [48, 48]) = true := by simp [hc]
    rw [isControlFieldTagGo_of_le h2, hd, GetRawField_single hfil hbound]
    have hne : (slice m.rawRecord loc.offset (loc.offset + loc.length)).isEmpty = false := by
      apply isEmpty_false_of_le
      omega
    simp [hne]
  · intro honly hmem
    rw [List.mem_iff_getElem] at hmem
    obtain ⟨k, hk, hget⟩ := hmem
    have hklt : k < (slice m.rawRecord loc.offset (loc.offset + loc.length)).length := by
      have := List.length_dropLast (slice m.rawRecord loc.offset (loc.offset + loc.length))
      omega
    have hgk : (slice m.rawRecord loc.offset (loc.offset + loc.length)).get ⟨k, hklt⟩ =
        fieldTerminator := by
      rw [← hget]
      exact (List.getElem_dropLast _ k hk).symm
    have hlast := honly k hklt hgk
    have hdl := List.length_dropLast (slice m.rawRecord loc.offset (loc.offset + loc.length))
    omega

/-- Witness for C10 on a concrete record: control field "001" holds bytes
"ab" followed by the field terminator. -/
theorem claim10_witness :
    GetControlField ⟨[97, 98, 30], 0, 0, 0, 0, 97, 0, 0, 0,
        [([48, 48, 49], ⟨0, 3⟩)], .utf8⟩ [48, 48, 49] =
      .ok ((slice [97, 98, 30] 0 3).dropLast) ∧
    fieldTerminator ∉ (slice [97, 98, 30] 0 3).dropLast := by
  have h := claim10_control_field_strip ⟨[97, 98, 30], 0, 0, 0, 0, 97, 0, 0, 0,
    [([48, 48, 49], ⟨0, 3⟩)], .utf8⟩ [48, 48, 49] ⟨0, 3⟩ (by decide) (by decide)
    (by decide) (by decide)
  exact ⟨h.1, h.2 (by decide)⟩

/-! ## C6: transcoder dispatch -/

theorem checkLeader_false_of :
    ∀ (tbl : List (Nat × List Nat)) (leader : List Nat),
      (∀ p ∈ tbl, p.1 < leader.length) →
      (∃ p ∈ tbl, ∀ c, leader.get? p.1 = some c → p.2.contains c = false) →
      checkLeader tbl leader = some false := by
  intro tbl
  induction tbl with
  | nil =>
    intro leader hin hex
    obtain ⟨p, hp, _⟩ := hex
    simp at hp
  | cons hd rest ih =>
    intro leader hin hex
    obtain ⟨off, vals⟩ := hd
    have hoff : off < leader.length := hin (off, vals) (List.mem_cons_self _ _)
    have hc : leader.get? off = some (leader.get ⟨off, hoff⟩) := List.get?_eq_get hoff
    unfold checkLeader
    rw [hc]
    show (if vals.contains (leader.get ⟨off, hoff⟩) = true then checkLeader rest leader
      else some false) = some false
    by_cases hcont : vals.contains (leader.get ⟨off, hoff⟩)
    · rw [if_pos hcont]
      apply ih leader (fun p hp => hin p (List.mem_cons_of_mem _ hp))
      obtain ⟨p, hp, hpf⟩ := hex
      rcases List.mem_cons.mp hp with heq | htail
      · exfalso
        subst heq
        have := hpf (leader.get ⟨off, hoff⟩) hc
        rw [this] at hcont
        exact Bool.noConfusion hcont
      · exact ⟨p, htail, hpf⟩
    · rw [if_neg hcont]

/-- A 26-byte record whose leader is valid except possibly at position 8
(the character-encoding byte), with an empty directory. -/
def recEnc (enc : Nat) : List Nat :=
  [48, 48, 48, 50, 54, 110, 97, 109, enc, 97, 50, 50, 48, 48, 48, 48, 48,
   55, 117, 32, 52, 53, 48, 48, 30, 29]

/-- Counterexample to C2's source claim C6: for leader byte 8 = 'b' (not
' ' or 'a'), record construction with validation off succeeds with the
plain UTF-8 transcoder — exactly the result for 'a' — with no
`UnknownCharacterEncoding` failure and no recorded warning: a silent
default. -/
theorem claim6_counterexample :
    (NewMarcRecord (recEnc 98) false 0).map (Except.map MarcRecord.transcoder) =
      some (.ok .utf8) ∧
    (NewMarcRecord (recEnc 97) false 0).map (Except.map MarcRecord.transcoder) =
      some (.ok .utf8) ∧
    NewMarcRecord (recEnc 98) false 0 ≠ some (.error .invalidLeader) := by
  refine ⟨by decide, by decide, ?_⟩
  intro h
  exact absurd (by decide : (NewMarcRecord (recEnc 98) false 0).map
    (Except.map MarcRecord.transcoder) = some (.ok .utf8)) (by rw [h]; decide)

theorem buildRecord_transcoder {raw : List Nat} {enc off : Nat}
    (h8 : raw.get? 8 = some enc) :
    ∀ m, buildRecord raw off = some (.ok m) → m.transcoder = selectTranscoder enc := by
  intro m hm
  unfold buildRecord at hm
  simp only [bind, Option.bind_eq_some] at hm
  obtain ⟨s, hs, t, ht, b, hb, e, he, el, hel, cf, hcf, ml, hml, dir, hdir, hm⟩ := hm
  rw [h8] at he
  cases he
  simp only [Option.pure_def, Option.some.injEq] at hm
  cases hm
  rfl

theorem buildRecord_not_error (raw : List Nat) (off : Nat) (err : ConstructError) :
    buildRecord raw off ≠ some (.error err) := by
  intro hm
  unfold buildRecord at hm
  simp only [bind, Option.bind_eq_some] at hm
  obtain ⟨s, hs, t, ht, b, hb, e, he, el, hel, cf, hcf, ml, hml, dir, hdir, hm⟩ := hm
  simp only [Option.pure_def, Option.some.injEq] at hm
  exact Except.noConfusion hm

/-- C6 amended: the leader character-encoding byte ' ' selects the legacy
MARC-8 transcoder and 'a' direct UTF-8, and every constructed record's
transcoder is the one selected from its leader byte 8; for any other byte
value, construction with validation off silently succeeds with the UTF-8
transcoder (no error is possible and nothing records a warning), and
construction with validation on fails with `InvalidLeader` — never with an
unknown-encoding error, which the code does not have. -/
theorem claim6_transcoder_fallback :
    ∀ (raw : List Nat) (enc off : Nat), raw.get? 8 = some enc →
      (selectTranscoder 32 = .marc8 ∧ selectTranscoder 97 = .utf8 ∧
        (enc ≠ 32 → enc ≠ 97 → selectTranscoder enc = .utf8)) ∧
      (∀ (validate : Bool) (m : MarcRecord),
        NewMarcRecord raw validate off = some (.ok m) →
        m.transcoder = selectTranscoder enc) ∧
      NewMarcRecord raw false off ≠ some (.error .invalidLeader) ∧
      (enc ≠ 32 → enc ≠ 97 → 24 ≤ raw.length →
        NewMarcRecord raw true off = some (.error .invalidLeader)) := by
  intro raw enc off h8
  refine ⟨⟨rfl, rfl, ?_⟩, ?_, ?_, ?_⟩
  · intro h32 h97
    unfold selectTranscoder
    rw [if_neg h32, if_neg h97]
  · intro validate m hm
    cases validate with
    | false => exact buildRecord_transcoder h8 m hm
    | true =>
      unfold NewMarcRecord at hm
      rw [if_pos rfl] at hm
      cases hcl : checkLeader marc21LeaderValues raw with
      | none => rw [hcl] at hm; simp at hm
      | some b =>
        cases b with
        | false => rw [hcl] at hm; simp at hm
        | true =>
          rw [hcl] at hm
          exact buildRecord_transcoder h8 m hm
  · intro hm
    exact buildRecord_not_error raw off .invalidLeader hm
  · intro h32 h97 hlen
    unfold NewMarcRecord
    have hfalse : checkLeader marc21LeaderValues raw = some false := by
      apply checkLeader_false_of
      · intro p hp
        fin_cases hp <;> simp <;> omega
      · refine ⟨(8, bytesOf " a"), by decide, ?_⟩
        intro c hcget
        rw [h8] at hcget
        cases hcget
        have hnot : enc ∉ ([32, 97] : List Nat) := by
          intro hmem
          rcases List.mem_cons.mp hmem with h | h
          · exact h32 h
          · rcases List.mem_cons.mp h with h' | h'
            · exact h97 h'
            · simp at h'
        show ([32, 97] : List Nat).contains enc = false
        simp [List.contains, hnot]
    rw [hfalse]
    rfl

/-- Witness for C6's amended claim: the ' '/'a' selection rules, a record
with leader byte 8 = ' ' constructed with the MARC-8 transcoder, and a
record with leader byte 8 = 'b' rejected by validation. -/
theorem claim6_witness :
    (recEnc 98).get? 8 = some 98 ∧
    selectTranscoder 32 = Transcoder.marc8 ∧
    selectTranscoder 97 = Transcoder.utf8 ∧
    (recEnc 32).get? 8 = some 32 ∧
    NewMarcRecord (recEnc 32) false 0 =
      some (.ok ⟨recEnc 32, 0, 110, 97, 109, 32, 55, 117, 32, [], .marc8⟩) ∧
    (⟨recEnc 32, 0, 110, 97, 109, 32, 55, 117, 32, [], .marc8⟩ : MarcRecord).transcoder =
      selectTranscoder 32 ∧
    NewMarcRecord (recEnc 98) true 0 = some (.error .invalidLeader) := by
  have h98 := claim6_transcoder_fallback (recEnc 98) 98 0 (by decide)
  have h32 := claim6_transcoder_fallback (recEnc 32) 32 0 (by decide)
  exact ⟨by decide, h98.1.1, h98.1.2.1, by decide, by decide,
    h32.2.1 false _ (by decide), h98.2.2.2 (by decide) (by decide) (by decide)⟩

/-! ## C8: GetFieldList -/

/-- C8: `GetFieldList` is lexicographically sorted, free of duplicates,
contains exactly the tags of the directory, and depends only on the set of
distinct tags, not on directory scan order. -/
theorem claim8_field_list_sorted :
    (∀ m : MarcRecord,
      (GetFieldList m).Sorted (· ≤ ·) ∧ (GetFieldList m).Nodup ∧
      ∀ t, t ∈ GetFieldList m ↔ t ∈ m.directory.map Prod.fst) ∧
    (∀ m1 m2 : MarcRecord, List.Perm (dirKeys m1.directory) (dirKeys m2.directory) →
      GetFieldList m1 = GetFieldList m2) := by
  constructor
  · intro m
    unfold GetFieldList dirKeys
    refine ⟨List.sorted_insertionSort _ _, ?_, ?_⟩
    · rw [(List.perm_insertionSort _ _).nodup_iff]
      exact List.nodup_dedup _
    · intro t
      rw [(List.perm_insertionSort _ _).mem_iff]
      exact List.mem_dedup
  · intro m1 m2 hperm
    apply List.eq_of_perm_of_sorted _ (List.sorted_insertionSort _ _)
      (List.sorted_insertionSort _ _)
    exact ((List.perm_insertionSort _ _).trans hperm).trans
      (List.perm_insertionSort _ _).symm

/-- Witness for C8: two directories listing the same tags in opposite scan
order produce the same field list. -/
theorem claim8_witness :
    List.Perm (dirKeys [([50, 52, 53], location.mk 0 1), ([48, 48, 49], location.mk 2 1)])
      (dirKeys [([48, 48, 49], location.mk 2 1), ([50, 52, 53], location.mk 0 1)]) ∧
    GetFieldList ⟨[], 0, 0, 0, 0, 0, 0, 0, 0,
        [([50, 52, 53], location.mk 0 1), ([48, 48, 49], location.mk 2 1)], .utf8⟩ =
      GetFieldList ⟨[], 0, 0, 0, 0, 0, 0, 0, 0,
        [([48, 48, 49], location.mk 2 1), ([50, 52, 53], location.mk 0 1)], .utf8⟩ :=
  ⟨by decide, claim8_field_list_sorted.2 _ _ (by decide)⟩

/-! ## C1: directory decoding -/

/-- The directory entry the specification predicts at byte offset `j`:
3-byte tag, then the location built from the 4-digit length at `j+3` and
the 5-digit start offset at `j+7` added to the base address. -/
def entrySpec (record : List Nat) (base j : Nat) : List Nat × location :=
  (slice record j (j + 3),
   location.mk (base + decodeDecimal (slice record (j + 7) (j + 12)))
     (decodeDecimal (slice record (j + 3) (j + 7))))

theorem slice_drop (s : List Nat) (d a b : Nat) :
    slice (s.drop d) a b = slice s (d + a) (d + b) := by
  unfold slice
  rw [List.drop_drop]
  have h2 : d + b - (d + a) = b - a := by omega
  rw [h2]

theorem entrySpec_drop (s : List Nat) (base d j : Nat) :
    entrySpec (s.drop d) base j = entrySpec s base (d + j) := by
  unfold entrySpec
  rw [slice_drop, slice_drop, slice_drop]
  have h3 : d + (j + 3) = d + j + 3 := by omega
  have h7 : d + (j + 7) = d + j + 7 := by omega
  have h12 : d + (j + 12) = d + j + 12 := by omega
  rw [h3, h7, h12]

theorem dirScanAux_spec :
    ∀ (es : List (List Nat × location)) (base : Nat) (s : List Nat),
      dirScanAux base s = some es →
      (∀ k, (hk : k < es.length) →
        es.get ⟨k, hk⟩ = entrySpec s base (12 * k) ∧
        s.get? (12 * k) ≠ some fieldTerminator ∧
        (s.get? (12 * k)).isSome = true) ∧
      s.get? (12 * es.length) = some fieldTerminator := by
  intro es
  induction es with
  | nil =>
    intro base s h
    cases s with
    | nil => simp [dirScanAux] at h
    | cons c rest =>
      unfold dirScanAux at h
      by_cases hc : c = fieldTerminator
      · refine ⟨fun k hk => absurd hk (by simp), ?_⟩
        simp [hc]
      · rw [if_neg hc] at h
        exfalso
        split at h
        · simp [Option.map_eq_some'] at h
        · simp at h
  | cons e es ih =>
    intro base s h
    cases s with
    | nil => simp [dirScanAux] at h
    | cons c rest =>
      unfold dirScanAux at h
      by_cases hc : c = fieldTerminator
      · rw [if_pos hc] at h
        simp at h
      · rw [if_neg hc] at h
        split at h
        · rename_i t1 t2 l0 l1 l2 l3 s0 s1 s2 s3 s4 tail
          rw [Option.map_eq_some'] at h
          obtain ⟨a, ha, hcons⟩ := h
          obtain ⟨he, hes⟩ := List.cons.inj hcons
          subst hes
          obtain ⟨ihk, ihterm⟩ := ih base tail ha
          have hdrop : (c :: t1 :: t2 :: l0 :: l1 :: l2 :: l3 ::
              s0 :: s1 :: s2 :: s3 :: s4 :: tail).drop 12 = tail := rfl
          have hget12 : ∀ j, tail.get? j = (c :: t1 :: t2 :: l0 :: l1 :: l2 :: l3 ::
              s0 :: s1 :: s2 :: s3 :: s4 :: tail).get? (12 + j) := by
            intro j
            conv_lhs => rw [← hdrop]
            rw [List.get?_drop]
          constructor
          · intro k hk
            cases k with
            | zero =>
              refine ⟨?_, ?_, by simp⟩
              · rw [← he]
                unfold entrySpec slice
                simp
              · simpa using hc
            | succ k =>
              have hk' : k < a.length := by simpa using hk
              obtain ⟨hek, hterm, hsome⟩ := ihk k hk'
              have hmul : 12 * (k + 1) = 12 + 12 * k := by omega
              refine ⟨?_, ?_, ?_⟩
              · show a.get ⟨k, hk'⟩ = _
                rw [hek]
                conv_lhs => rw [← hdrop]
                rw [entrySpec_drop, hmul]
              · rw [hmul, ← hget12]
                exact hterm
              · rw [hmul, ← hget12]
                exact hsome
          · have hmul : 12 * (e :: a).length = 12 + 12 * a.length := by
              simp
              omega
            rw [hmul, ← hget12]
            exact ihterm
        · simp at h

/-- A minimal record: 24-byte leader (base address 37), one directory
entry (tag "001", length 2, start offset 0), terminator, field data,
record terminator. -/
def tinyRec : List Nat :=
  bytesOf "00040nam a22000377u 4500" ++ bytesOf "0010002" ++ bytesOf "00000" ++
    [fieldTerminator] ++ [97, fieldTerminator, recordTerminator]

/-- C1: `decodeDirectory` reads the base address as the 5-digit decimal at
offset 12 and scans 12-byte entries from offset 24 (3-byte tag, 4-digit
decimal length, 5-digit decimal start offset), stopping at the first field
terminator on a 12-byte boundary; entry `k` of the result, in scan order,
carries the absolute location `(base + startOffset, length)`; and the
reference record's 11-entry directory decodes to exactly 11 distinct keys. -/
theorem claim1_directory_decode :
    (∀ (record : List Nat) (es : List (List Nat × location)),
      decodeDirectory record = some es →
      (∀ k, (hk : k < es.length) →
        es.get ⟨k, hk⟩ =
          (slice record (24 + 12 * k) (24 + 12 * k + 3),
           location.mk
             (decodeDecimal (slice record 12 17) +
               decodeDecimal (slice record (24 + 12 * k + 7) (24 + 12 * k + 12)))
             (decodeDecimal (slice record (24 + 12 * k + 3) (24 + 12 * k + 7)))) ∧
        record.get? (24 + 12 * k) ≠ some fieldTerminator ∧
        (record.get? (24 + 12 * k)).isSome = true) ∧
      record.get? (24 + 12 * es.length) = some fieldTerminator) ∧
    (decodeDirectory harvardBytes).map (fun es => (dirKeys es).length) = some 11 := by
  constructor
  · intro record es h
    unfold decodeDirectory at h
    obtain ⟨hk, hterm⟩ := dirScanAux_spec es (decodeDecimal (slice record 12 17))
      (record.drop 24) h
    have hget : ∀ j : Nat, (record.drop 24).get? j = record.get? (24 + j) := by
      intro j
      rw [List.get?_drop]
    constructor
    · intro k hklt
      obtain ⟨hek, ht, hs⟩ := hk k hklt
      refine ⟨?_, ?_, ?_⟩
      · rw [hek, entrySpec_drop]
        rfl
      · rw [← hget]
        exact ht
      · rw [← hget]
        exact hs
    · rw [← hget]
      exact hterm
  · decide

/-- Witness for C1 at a concrete one-entry record: the decoded entry is at
absolute offset 37 (base address 37 + start offset 0) with length 2, and
the scan stops at the terminator at offset 36. -/
theorem claim1_witness :
    decodeDirectory tinyRec = some [([48, 48, 49], location.mk 37 2)] ∧
    tinyRec.get? (24 + 12 * [([48, 48, 49], location.mk 37 2)].length) =
      some fieldTerminator :=
  ⟨by decide, (claim1_directory_decode.1 tinyRec [([48, 48, 49], location.mk 37 2)]
    (by decide)).2⟩

/-! ## C2: subfield extraction -/

/-- Wire form of one subfield run: delimiter, 1-byte code, data bytes. -/
def runBytes (r : Nat × List Nat) : List Nat := delimiter :: r.1 :: r.2

/-- Wire form of the subfield region of a data-field occurrence: the runs
back to back, closed by the field terminator. -/
def regionBytes (runs : List (Nat × List Nat)) : List Nat :=
  (runs.map runBytes).join ++ [fieldTerminator]

/-- Wire form of a whole data-field occurrence: two indicator bytes, then
the subfield region. -/
def occBytes (i0 i1 : Nat) (runs : List (Nat × List Nat)) : List Nat :=
  i0 :: i1 :: regionBytes runs

/-- A well-formed subfield run: neither its code byte nor its data bytes
are the delimiter or the field terminator. -/
def WFRun (r : Nat × List Nat) : Prop :=
  r.1 ≠ delimiter ∧ r.1 ≠ fieldTerminator ∧
  ∀ b ∈ r.2, b ≠ delimiter ∧ b ≠ fieldTerminator

/-- The data of the first run whose code is `sf`. -/
def firstMatch (sf : Nat) (runs : List (Nat × List Nat)) : Option (List Nat) :=
  (runs.find? (fun r => decide (r.1 = sf))).map Prod.snd

instance (r : Nat × List Nat) : Decidable (WFRun r) := by
  unfold WFRun
  infer_instance

theorem takeData_append :
    ∀ d : List Nat, (∀ b ∈ d, b ≠ delimiter ∧ b ≠ fieldTerminator) →
      ∀ (c : Nat) (rest : List Nat), (c = delimiter ∨ c = fieldTerminator) →
      takeData (d ++ c :: rest) = some d := by
  intro d
  induction d with
  | nil =>
    intro _ c rest hc
    rw [List.nil_append]
    unfold takeData
    rw [if_pos hc]
  | cons b d ih =>
    intro hwf c rest hc
    have hb := hwf b (List.mem_cons_self _ _)
    rw [List.cons_append]
    unfold takeData
    rw [if_neg (by tauto), ih (fun x hx => hwf x (List.mem_cons_of_mem _ hx)) c rest hc]
    rfl

theorem sfScan_data_skip :
    ∀ d : List Nat, (∀ b ∈ d, b ≠ delimiter ∧ b ≠ fieldTerminator) →
      ∀ (sf : Nat) (suffix : List Nat),
      sfScan sf (d ++ suffix) false = sfScan sf suffix false := by
  intro d
  induction d with
  | nil => intro _ sf suffix; rfl
  | cons b d ih =>
    intro hwf sf suffix
    have hb := hwf b (List.mem_cons_self _ _)
    rw [List.cons_append]
    conv_lhs => unfold sfScan
    rw [if_neg (by simp), if_neg hb.1, if_neg hb.2]
    exact ih (fun x hx => hwf x (List.mem_cons_of_mem _ hx)) sf suffix

theorem sfScan_delim_step (sf : Nat) (l : List Nat) :
    sfScan sf (delimiter :: l) false = sfScan sf l true := by
  conv_lhs => unfold sfScan
  rw [if_neg (by simp), if_pos rfl]

theorem regionBytes_cons (r : Nat × List Nat) (rest : List (Nat × List Nat)) :
    regionBytes (r :: rest) = delimiter :: r.1 :: (r.2 ++ regionBytes rest) := by
  unfold regionBytes runBytes
  simp [List.append_assoc]

theorem regionBytes_head (rs : List (Nat × List Nat)) :
    ∃ tail, regionBytes rs = delimiter :: tail ∨ regionBytes rs = fieldTerminator :: tail := by
  cases rs with
  | nil => exact ⟨[], Or.inr rfl⟩
  | cons r rest => exact ⟨r.1 :: (r.2 ++ regionBytes rest), Or.inl (regionBytes_cons r rest)⟩

theorem sfScan_region :
    ∀ (runs : List (Nat × List Nat)) (sf : Nat), (∀ r ∈ runs, WFRun r) →
      sfScan sf (regionBytes runs) false = .ok (firstMatch sf runs) := by
  intro runs
  induction runs with
  | nil =>
    intro sf _
    show sfScan sf [fieldTerminator] false = _
    unfold sfScan
    rw [if_neg (by simp), if_neg (by decide), if_pos rfl]
    rfl
  | cons r rest ih =>
    intro sf hwf
    have hr := hwf r (List.mem_cons_self _ _)
    rw [regionBytes_cons, sfScan_delim_step]
    unfold sfScan
    by_cases hmatch : r.1 = sf
    · rw [if_pos ⟨rfl, hmatch⟩]
      obtain ⟨tail, htail⟩ := regionBytes_head rest
      rcases htail with h | h
      · rw [h, takeData_append r.2 hr.2.2 delimiter tail (Or.inl rfl)]
        unfold firstMatch
        rw [List.find?_cons_of_pos _ (by simpa using hmatch)]
        rfl
      · rw [h, takeData_append r.2 hr.2.2 fieldTerminator tail (Or.inr rfl)]
        unfold firstMatch
        rw [List.find?_cons_of_pos _ (by simpa using hmatch)]
        rfl
    · rw [if_neg (by simp [hmatch]), if_neg hr.1, if_neg hr.2.1,
        sfScan_data_skip r.2 hr.2.2, ih sf (fun x hx => hwf x (List.mem_cons_of_mem _ hx))]
      unfold firstMatch
      rw [List.find?_cons_of_neg _ (by simpa using hmatch)]

/-- Counterexample to C2 as stated: on the truncated occurrence
`[32, 32, 0x1F, 'a', 'b']` (no terminator after the data of `$a`), the
scan of `GetNthRawSubfield` runs off the end of the occurrence (an
out-of-range access, modelled `.error ()`), rather than returning the
not-found signal. -/
theorem claim2_counterexample :
    VariableField.GetNthRawSubfield ⟨[50, 52, 53], [[32, 32, 31, 97, 98]], some .utf8⟩
      [97] 0 = .error () ∧
    VariableField.GetNthRawSubfield ⟨[50, 52, 53], [[32, 32, 31, 97, 98]], some .utf8⟩
      [97] 0 ≠ .ok none := by
  exact ⟨by decide, by decide⟩

/-- On a well-formed occurrence, `GetNthRawSubfield` returns the first
matching run's data, or `nil` when no run matches. -/
theorem getNthRawSubfield_occBytes :
    ∀ (f : VariableField) (sf : Nat) (sfrest : List Nat) (index i0 i1 : Nat)
      (runs : List (Nat × List Nat)),
      f.rawData.get? index = some (occBytes i0 i1 runs) →
      (∀ r ∈ runs, WFRun r) →
      f.GetNthRawSubfield (sf :: sfrest) index = .ok (firstMatch sf runs) := by
  intro f sf sfrest index i0 i1 runs hget hwf
  unfold VariableField.GetNthRawSubfield
  rw [hget]
  cases runs with
  | nil =>
    show (if fieldTerminator = delimiter then sfScan sf [] true else Except.ok none) =
      Except.ok (firstMatch sf [])
    rw [if_neg (by decide)]
    rfl
  | cons r rest =>
    have hocc : occBytes i0 i1 (r :: rest) =
        i0 :: i1 :: delimiter :: (r.1 :: (r.2 ++ regionBytes rest)) := by
      unfold occBytes
      rw [regionBytes_cons]
    rw [hocc]
    show (if delimiter = delimiter then
        sfScan sf (r.1 :: (r.2 ++ regionBytes rest)) true else Except.ok none) =
      Except.ok (firstMatch sf (r :: rest))
    rw [if_pos rfl, ← sfScan_delim_step, ← regionBytes_cons, sfScan_region _ sf hwf]

/-- C2 amended: `GetNthRawSubfield(subfield, index)` has no occurrence
count `n` beyond the occurrence index — it always returns the first
(0-indexed: n = 0) run whose code matches.  On a well-formed occurrence
(indicators, delimiter-separated runs, closing field terminator) it
returns the first matching run's data bytes, or `nil` when no run
matches; on an occurrence truncated before a terminator the scan instead
reads out of range (see the counterexample). -/
theorem claim2_subfield_first_match :
    ∀ (f : VariableField) (sf : Nat) (sfrest : List Nat) (index i0 i1 : Nat)
      (runs : List (Nat × List Nat)),
      f.rawData.get? index = some (occBytes i0 i1 runs) →
      (∀ r ∈ runs, WFRun r) →
      f.GetNthRawSubfield (sf :: sfrest) index = .ok (firstMatch sf runs) :=
  getNthRawSubfield_occBytes

/-- Witness for C2's amended claim on a concrete two-run occurrence. -/
theorem claim2_witness :
    (∀ r ∈ [(97, [120]), (99, [121, 122])], WFRun r) ∧
    VariableField.GetNthRawSubfield ⟨[50, 52, 53],
        [occBytes 32 32 [(97, [120]), (99, [121, 122])]], some .utf8⟩ [99] 0 =
      .ok (firstMatch 99 [(97, [120]), (99, [121, 122])]) :=
  ⟨by decide, claim2_subfield_first_match _ 99 [] 0 32 32 _ (by decide) (by decide)⟩

/-! ## C7: query-time absence -/

/-- Counterexample to C7 as stated: on the truncated occurrence
`[32, 32, 0x1F, 'a', 'b']` the code `'z'` has no match, yet
`GetNthSubfield` does not return empty text: the seek loop reads past the
end of the occurrence (an out-of-range access, modelled `.error ()`). -/
theorem claim7_counterexample :
    VariableField.GetNthSubfield ⟨[50, 52, 53], [[32, 32, 31, 97, 98]], some .utf8⟩
      [122] 0 = .error () ∧
    VariableField.GetNthSubfield ⟨[50, 52, 53], [[32, 32, 31, 97, 98]], some .utf8⟩
      [122] 0 ≠ .ok [] := by
  exact ⟨by decide, by decide⟩

/-- C7 amended: `GetRawField` on an absent tag returns a `VariableField`
with zero occurrences, not an error; `GetNthSubfield` returns empty text
whenever the scan reports no match (`nil`), and in particular on every
well-formed (terminator-closed) occurrence none of whose run codes equals
the requested code; but on an occurrence truncated before a terminator a
no-match scan reads out of range instead (see the counterexample). -/
theorem claim7_absence_amended :
    (∀ (m : MarcRecord) (tag : List Nat), (∀ e ∈ m.directory, e.1 ≠ tag) →
      GetRawField m tag = some ⟨[], [], none⟩ ∧
      ∀ f, GetRawField m tag = some f → f.rawData.length = 0) ∧
    (∀ (f : VariableField) (subfield : List Nat) (index : Nat),
      f.GetNthRawSubfield subfield index = .ok none →
      f.GetNthSubfield subfield index = .ok []) ∧
    (∀ (f : VariableField) (sf : Nat) (sfrest : List Nat) (index i0 i1 : Nat)
      (runs : List (Nat × List Nat)),
      f.rawData.get? index = some (occBytes i0 i1 runs) →
      (∀ r ∈ runs, WFRun r) →
      (∀ r ∈ runs, r.1 ≠ sf) →
      f.GetNthSubfield (sf :: sfrest) index = .ok []) := by
  refine ⟨?_, ?_, ?_⟩
  · intro m tag habs
    refine ⟨GetRawField_absent habs, ?_⟩
    intro f hf
    rw [GetRawField_absent habs] at hf
    cases hf
    rfl
  · intro f subfield index h
    unfold VariableField.GetNthSubfield
    rw [h]
  · intro f sf sfrest index i0 i1 runs hget hwf hnone
    have hraw := getNthRawSubfield_occBytes f sf sfrest index i0 i1 runs hget hwf
    have hfm : firstMatch sf runs = none := by
      unfold firstMatch
      rw [List.find?_eq_none.mpr (fun x hx => by simpa using hnone x hx)]
      rfl
    unfold VariableField.GetNthSubfield
    rw [hraw, hfm]

/-- Witness for C7's amended claim: an absent tag on a concrete record,
and a well-formed single-run occurrence queried with a non-matching code. -/
theorem claim7_witness :
    (GetRawField ⟨[97, 98, 30], 0, 0, 0, 0, 97, 0, 0, 0,
        [([48, 48, 49], ⟨0, 3⟩)], .utf8⟩ [54, 54, 54] = some ⟨[], [], none⟩ ∧
      ∀ f, GetRawField ⟨[97, 98, 30], 0, 0, 0, 0, 97, 0, 0, 0,
        [([48, 48, 49], ⟨0, 3⟩)], .utf8⟩ [54, 54, 54] = some f →
        f.rawData.length = 0) ∧
    VariableField.GetNthSubfield ⟨[50, 52, 53], [occBytes 32 32 [(97, [120])]],
      some .utf8⟩ [122] 0 = .ok [] := by
  constructor
  · exact claim7_absence_amended.1 _ [54, 54, 54] (by decide)
  · exact claim7_absence_amended.2.2 ⟨[50, 52, 53], [occBytes 32 32 [(97, [120])]],
      some .utf8⟩ 122 [] 0 32 32 [(97, [120])] (by decide) (by decide) (by decide)

end Marc21
